import Mathlib

/-!
Verification of the `buscador_precios` repository core logic.

The Python sources are shallowly embedded below:
* `utils/helpers.py`  — product-name normalizer, prettifier, confidence tiers;
* `app.py`, page "Lista de Precios" — sighting aggregation, filtering, sorting;
* `app.py`, page "Cargar Precio" — geocoding provider fallback;
* `app.py`, page "Alertas" — alert creation;
* the Alert Matcher (notification emission), which lives in the database layer,
  is modelled from the specification.

Strings are modelled over `List Char` / `String` with ASCII character classes
(Python's `str.lower`, `str.split`, `\d`, `\s`, `\w` restricted to ASCII, which
covers every input appearing in the claims).  Python `float` values are
modelled as `ℚ`; timestamps as `Nat` (ordering is all that matters).
-/

namespace Buscador

/-! ## utils/helpers.py -/

/-- The fixed unit map `UNITS_MAP = {"lt": "l", "l": "l", "kg": "kg", "gr": "g",
"g": "g", "ml": "ml"}`, as an association list in the regex alternation order
`lt|l|kg|gr|g|ml` used by `normalize_product`. -/
def UNITS_MAP : List (List Char × List Char) :=
  [(['l','t'], ['l']), (['l'], ['l']), (['k','g'], ['k','g']),
   (['g','r'], ['g']), (['g'], ['g']), (['m','l'], ['m','l'])]

/-- Lookup of a whole token in `UNITS_MAP` (Python `t in UNITS_MAP`). -/
def unitsLookup (t : List Char) : Option (List Char) :=
  (UNITS_MAP.find? (fun kv => kv.1 == t)).map (·.2)

/-- Python `str.strip()` (ASCII whitespace model). -/
def pyStrip (l : List Char) : List Char :=
  (((l.dropWhile Char.isWhitespace).reverse).dropWhile Char.isWhitespace).reverse

/-- Python `str.lower()` on raw character data (ASCII model). -/
def lowerData (l : List Char) : List Char :=
  l.map Char.toLower

/-- Auxiliary for `splitWS`: accumulates the current token (reversed). -/
def splitWSAux : List Char → List Char → List (List Char)
  | [], acc => if acc.isEmpty then [] else [acc.reverse]
  | c :: cs, acc =>
    if c.isWhitespace then
      if acc.isEmpty then splitWSAux cs [] else acc.reverse :: splitWSAux cs []
    else
      splitWSAux cs (c :: acc)

/-- Python `str.split()` with no argument: split on whitespace runs,
discarding empty pieces. -/
def splitWS (l : List Char) : List (List Char) :=
  splitWSAux l []

/-- Python `" ".join(tokens)` on raw character data. -/
def joinWords : List (List Char) → List Char
  | [] => []
  | [t] => t
  | t :: ts => t ++ ' ' :: joinWords ts

/-- Python regex `\w` (ASCII model): letters, digits and underscore. -/
def isWordChar (c : Char) : Bool :=
  c.isAlphanum || c == '_'

/-- Word boundary `\b` immediately after a word character: holds at end of
input or when the next character is not a word character. -/
def wordBoundary : List Char → Bool
  | [] => true
  | c :: _ => !isWordChar c

/-- Try the regex alternation `(lt|l|kg|gr|g|ml)\b` at the head of `s`,
alternatives in Python's left-to-right order.  On success returns the
canonical unit `UNITS_MAP[matched]` and the remaining input. -/
def tryUnitAlt : List (List Char × List Char) → List Char → Option (List Char × List Char)
  | [], _ => none
  | (pat, canon) :: more, s =>
    if pat.isPrefixOf s && wordBoundary (s.drop pat.length) then
      some (canon, s.drop pat.length)
    else
      tryUnitAlt more s

/-- Try to match `(\d+)\s*(lt|l|kg|gr|g|ml)\b` at the head of `s`.  Returns
the digit group, the canonical unit and the rest of the input. -/
def matchUnit (s : List Char) : Option (List Char × List Char × List Char) :=
  let ds := s.takeWhile Char.isDigit
  if ds.isEmpty then none
  else
    let r1 := s.dropWhile Char.isDigit
    let r2 := r1.dropWhile Char.isWhitespace
    match tryUnitAlt UNITS_MAP r2 with
    | some (canon, rest) => some (ds, canon, rest)
    | none => none

/-- One left-to-right, non-overlapping `re.sub` pass for
`(\d+)\s*(lt|l|kg|gr|g|ml)\b ↦ "<digits> <canonical unit>"`, with fuel
(`unitSub` supplies enough fuel for the whole input). -/
def unitSubAux : Nat → List Char → List Char
  | 0, s => s
  | _ + 1, [] => []
  | fuel + 1, c :: cs =>
    match matchUnit (c :: cs) with
    | some (ds, canon, rest) => ds ++ ' ' :: canon ++ unitSubAux fuel rest
    | none => c :: unitSubAux fuel cs

/-- `re.sub(r"(\d+)\s*(lt|l|kg|gr|g|ml)\b", lambda m: f"{digits} {unit}", s)`. -/
def unitSub (s : List Char) : List Char :=
  unitSubAux s.length s

/-- The punctuation class `[.,;:]` of `normalize_product`. -/
def isPunct (c : Char) : Bool :=
  c == '.' || c == ',' || c == ';' || c == ':'

/-- `re.sub(r"[.,;:]+", "", s)`: every maximal run of `[.,;:]` is replaced by
the empty string, i.e. each such character is deleted. -/
def punctSub : List Char → List Char
  | [] => []
  | c :: cs => if isPunct c then punctSub cs else c :: punctSub cs

/-- The body of `normalize_product` after the emptiness test, on raw data. -/
def normalizeData (l : List Char) : List Char :=
  let s1 := lowerData (pyStrip l)
  let s2 := joinWords (splitWS s1)
  let s3 := unitSub s2
  let s4 := joinWords (splitWS s3)
  let toks := splitWS s4
  let s5 := joinWords (toks.map (fun t => (unitsLookup t).getD t))
  punctSub s5

/-- `normalize_product` from `utils/helpers.py`: canonical product name. -/
def normalize_product (name : String) : String :=
  if name = "" then "" else ⟨normalizeData name.data⟩

/-- The values of `UNITS_MAP` (Python `UNITS_MAP.values()`), used by
`prettify_product` to keep unit tokens lowercase. -/
def unitValues : List (List Char) :=
  UNITS_MAP.map (·.2)

/-- `COMMON_WORDS_CAP` from `utils/helpers.py`. -/
def COMMON_WORDS_CAP : List (List Char) :=
  ["leche".data, "yerba".data, "arroz".data, "aceite".data, "azúcar".data,
   "fideos".data, "harina".data, "café".data, "te".data, "té".data]

/-- Python `str.capitalize()`: first character uppercased, rest lowercased. -/
def pyCapitalize : List Char → List Char
  | [] => []
  | c :: cs => c.toUpper :: lowerData cs

/-- Token rendering of `prettify_product`: units stay lowercase, common
grocery words are capitalized, other tokens get their first character
uppercased (single-character tokens are uppercased outright). -/
def prettifyToken (t : List Char) : List Char :=
  if unitValues.contains t then t
  else if COMMON_WORDS_CAP.contains t then pyCapitalize t
  else
    match t with
    | [] => []
    | [c] => [c.toUpper]
    | c :: cs => c.toUpper :: cs

/-- `prettify_product` from `utils/helpers.py`. -/
def prettify_product (name : String) : String :=
  if name = "" then "" else ⟨joinWords ((splitWS name.data).map prettifyToken)⟩

/-- `confidence_label` from `utils/helpers.py` (`count` is a Python `int`). -/
def confidence_label (count : Int) : String :=
  if count = 1 then "Reportado por 1 persona (puede variar)"
  else if 2 ≤ count ∧ count ≤ 3 then
    "Confirmado por " ++ toString count ++ " personas (confianza media)"
  else
    "Confirmado por " ++ toString count ++ " personas (alta confianza)"

/-- `confidence_class` from `utils/helpers.py`. -/
def confidence_class (count : Int) : String :=
  if count = 1 then "confidence-red"
  else if 2 ≤ count ∧ count ≤ 3 then "confidence-yellow"
  else "confidence-green"

/-! ## app.py — "Lista de Precios": sighting aggregation -/

/-- A row of the `sightings` table as selected by the page
(`id, product_id, store_id, price, created_at`).  `created_at` is a `Nat`
modelling the timestamp order; `price` is a `ℚ` modelling the float. -/
structure Sighting where
  id : Nat
  product_id : Nat
  store_id : Nat
  price : ℚ
  created_at : Nat
deriving DecidableEq, Inhabited

/-- The grouping key `(s["product_id"], s["store_id"])`. -/
def skey (s : Sighting) : Nat × Nat :=
  (s.product_id, s.store_id)

/-- The keys of the Python `grouped` dict, in first-insertion order and
without duplicates (Python dicts preserve insertion order). -/
def groupKeys : List Sighting → List (Nat × Nat)
  | [] => []
  | s :: rest => skey s :: (groupKeys rest).filter (· ≠ skey s)

/-- The list `grouped[k]`: the sightings of group `k` in original order. -/
def groupItems (ss : List Sighting) (k : Nat × Nat) : List Sighting :=
  ss.filter (fun s => skey s == k)

/-- The comparison used by
`sorted(items, key=lambda x: x["created_at"], reverse=True)`:
later sightings first; a stable insertion sort under this relation matches
Python's stable descending sort. -/
def laterFirst (a b : Sighting) : Prop :=
  b.created_at ≤ a.created_at

instance : DecidableRel laterFirst := fun a b => by
  unfold laterFirst; infer_instance

instance : IsTotal Sighting laterFirst := by
  constructor
  intro a b
  unfold laterFirst
  exact Nat.le_total b.created_at a.created_at

instance : IsTrans Sighting laterFirst :=
  ⟨fun _ _ _ h1 h2 => Nat.le_trans h2 h1⟩

/-- `items_sorted = sorted(items, key=..., reverse=True)`. -/
def sortSightingsDesc (items : List Sighting) : List Sighting :=
  items.insertionSort laterFirst

/-- One card of the "Lista de Precios" page (the fields of the `entries`
dict that the claims are about). -/
structure Entry where
  pid : Nat
  sid : Nat
  raw_name : String
  display_name : String
  currency : String
  latest_price : ℚ
  latest_date : Nat
  count : Nat
  label : String
  css_class : String
deriving DecidableEq, Inhabited

/-- The grouping key of an entry. -/
def entryKey (e : Entry) : Nat × Nat :=
  (e.pid, e.sid)

/-- Building one entry from a group, as the page body does:
`latest = items_sorted[0]`, `count = len(items)`, name data through
`prod_map` (abstracted by `pn`/`pc`: product id to canonical name and
currency). -/
def mkEntry (pn pc : Nat → String) (k : Nat × Nat) (items : List Sighting) : Entry :=
  let latest := (sortSightingsDesc items).headD default
  let count := items.length
  { pid := k.1, sid := k.2,
    raw_name := pn k.1,
    display_name := prettify_product (pn k.1),
    currency := pc k.1,
    latest_price := latest.price,
    latest_date := latest.created_at,
    count := count,
    label := confidence_label (count : Int),
    css_class := confidence_class (count : Int) }

/-- The `entries` list of the page: one entry per key of `grouped`, in
insertion order. -/
def aggEntries (ss : List Sighting) (pn pc : Nat → String) : List Entry :=
  (groupKeys ss).map (fun k => mkEntry pn pc k (groupItems ss k))

/-! ## app.py — "Lista de Precios": free-text filter -/

/-- Python substring test `needle in hay` on raw data. -/
def containsSub : List Char → List Char → Bool
  | hay, needle =>
    needle.isPrefixOf hay ||
      match hay with
      | [] => false
      | _ :: t => containsSub t needle

/-- Python `needle in hay` on strings. -/
def pyIn (needle hay : String) : Bool :=
  containsSub hay.data needle.data

/-- Python `str.lower()` on strings (ASCII model). -/
def strLower (s : String) : String :=
  ⟨lowerData s.data⟩

/-- The filter step of the page: when `filter_text` is non-empty, keep the
entries with `normalize_product(filter_text) in raw_name or
filter_text.strip().lower() in display_name.lower()`. -/
def filterEntries (ft : String) (es : List Entry) : List Entry :=
  if ft = "" then es
  else
    let ftNorm := normalize_product ft
    let ftLower := strLower ⟨pyStrip ft.data⟩
    es.filter (fun e => pyIn ftNorm e.raw_name || pyIn ftLower (strLower e.display_name))

/-- The filter predicate exactly as the specification words it (for
comparison with the code): the normalized filter appears in the canonical
name OR the lowercased filter appears in the lowercased display name. -/
def specFilterKeeps (ft : String) (e : Entry) : Bool :=
  pyIn (normalize_product ft) e.raw_name || pyIn (strLower ft) (strLower e.display_name)

/-! ## app.py — "Lista de Precios": sorting -/

/-- The ascending comparison of
`entries.sort(key=lambda e: (e["currency"], float(e["latest_price"])))`:
lexicographic on (currency, price). -/
def rAsc (a b : Entry) : Prop :=
  a.currency < b.currency ∨ (a.currency = b.currency ∧ a.latest_price ≤ b.latest_price)

/-- The comparison of the same sort with `reverse=True` (stable descending:
equal keys keep their original order). -/
def rDesc (a b : Entry) : Prop :=
  rAsc b a

instance : DecidableRel rAsc := fun a b => by
  unfold rAsc; infer_instance

instance : DecidableRel rDesc := fun a b => by
  unfold rDesc; infer_instance

instance : IsTotal Entry rAsc := by
  constructor
  intro a b
  rcases lt_trichotomy a.currency b.currency with h | h | h
  · exact Or.inl (Or.inl h)
  · rcases le_total a.latest_price b.latest_price with hp | hp
    · exact Or.inl (Or.inr ⟨h, hp⟩)
    · exact Or.inr (Or.inr ⟨h.symm, hp⟩)
  · exact Or.inr (Or.inl h)

instance : IsTrans Entry rAsc := by
  constructor
  intro a b c hab hbc
  rcases hab with h1 | ⟨h1, p1⟩
  · rcases hbc with h2 | ⟨h2, _⟩
    · exact Or.inl (h1.trans h2)
    · exact Or.inl (h2 ▸ h1)
  · rcases hbc with h2 | ⟨h2, p2⟩
    · exact Or.inl (h1 ▸ h2)
    · exact Or.inr ⟨h1.trans h2, p1.trans p2⟩

instance : IsRefl Entry rAsc :=
  ⟨fun _ => Or.inr ⟨rfl, le_refl _⟩⟩

instance : IsTotal Entry rDesc :=
  ⟨fun a b => (total_of rAsc b a).imp id id⟩

instance : IsTrans Entry rDesc :=
  ⟨fun _ _ _ hab hbc => Trans.trans (r := rAsc) (s := rAsc) hbc hab⟩

instance : IsRefl Entry rDesc :=
  ⟨fun a => refl_of rAsc a⟩

/-- `entries.sort(key=lambda e: (e["currency"], float(e["latest_price"])))`. -/
def sortPriceAsc (es : List Entry) : List Entry :=
  es.insertionSort rAsc

/-- The same sort with `reverse=True`. -/
def sortPriceDesc (es : List Entry) : List Entry :=
  es.insertionSort rDesc

/-- Entries of equal currency form contiguous blocks: any entry lying
between two entries of the same currency also has that currency. -/
def currencyContiguous (l : List Entry) : Prop :=
  ∀ i j k : Fin l.length, i ≤ j → j ≤ k →
    (l.get i).currency = (l.get k).currency → (l.get j).currency = (l.get i).currency

/-- Within each currency block, prices are non-decreasing. -/
def pricesWithinAsc (l : List Entry) : Prop :=
  ∀ i j : Fin l.length, i ≤ j → (l.get i).currency = (l.get j).currency →
    (l.get i).latest_price ≤ (l.get j).latest_price

/-- Within each currency block, prices are non-increasing. -/
def pricesWithinDesc (l : List Entry) : Prop :=
  ∀ i j : Fin l.length, i ≤ j → (l.get i).currency = (l.get j).currency →
    (l.get j).latest_price ≤ (l.get i).latest_price

/-! ## app.py — "Cargar Precio": geocoding with fallback

`geocode_address_google` returns a pair of floats or `(None, None)` on
failure; a coordinate is modelled as `Option ℚ`.  The page then runs
`if not g_lat or not g_lon: g_lat, g_lon = geocode_address_osm(...)`. -/

/-- Python truthiness of a coordinate: `not x` holds when `x` is `None` or
`x == 0.0`. -/
def coordFalsy : Option ℚ → Bool
  | none => true
  | some x => x == 0

/-- The condition under which the page calls the OSM geocoder. -/
def usesOsmGeocode (g : Option ℚ × Option ℚ) : Bool :=
  coordFalsy g.1 || coordFalsy g.2

/-- The coordinates the page ends up with, given the Google result `g` and
the OSM result `o`. -/
def geocodeStoreAddress (g o : Option ℚ × Option ℚ) : Option ℚ × Option ℚ :=
  if usesOsmGeocode g then o else g

/-- A place suggestion as returned by `places_nearby_google` /
`places_nearby_osm`. -/
structure Place where
  name : String
  address : String
  lat : ℚ
  lon : ℚ
deriving DecidableEq, Inhabited

/-- The page logic `g_places = places_nearby_google(...)`;
`if not g_places: g_places = places_nearby_osm(...)` — an empty list is the
only falsy list. -/
def placesWithFallback (g o : List Place) : List Place :=
  if g.isEmpty then o else g

/-! ## app.py — "Alertas": alert creation -/

/-- The stored `target_price` of a new alert:
`float(target_price) if target_price else None`, where the widget enforces
`target_price >= 0.0`. -/
def storedTargetPrice (tp : ℚ) : Option ℚ :=
  if tp == 0 then none else some tp

/-- Modelled from the spec: the price test of the Alert Matcher (§4.3
step 3), which runs in the database layer and is not under `src/` —
`sighting.price <= alert.target_price * (1 + tolerance_pct)` when
`target_price` is set; skipped (always passing) when it is null. -/
def priceTestPasses (target : Option ℚ) (tol price : ℚ) : Bool :=
  match target with
  | none => true
  | some t => price ≤ t * (1 + tol)

/-! ## Alert Matcher notification emission (modelled from the spec) -/

/-- Modelled from the spec: the Matcher's emission step (§4.3 step 5),
which is not under `src/` — "If all tests pass and no Notification already
exists for (alert.id, sighting.id), create one."  The notification store is
the list of `(alert_id, sighting_id)` pairs in creation order. -/
def notifyInsert (st : List (Nat × Nat)) (p : Nat × Nat) : List (Nat × Nat) :=
  if p ∈ st then st else st ++ [p]

/-- Modelled from the spec: one full Matcher pass over the qualifying
(alert, sighting) pairs derived from an unchanged sighting set, applying
the check-then-insert step to each. -/
def runMatcher (qual : List (Nat × Nat)) (st : List (Nat × Nat)) : List (Nat × Nat) :=
  qual.foldl notifyInsert st

/-! ## Specification-side tier table -/

/-- The confidence-tier table exactly as the specification words it
(count 1 is the single-report tier, counts 2–3 the medium tier, counts ≥ 4
the high tier; undefined below 1), paired with the user-facing label and
CSS class each tier must carry.  Stated for comparison with
`confidence_label`/`confidence_class`. -/
def tierSpec (c : Int) : Option (String × String) :=
  if c = 1 then some ("Reportado por 1 persona (puede variar)", "confidence-red")
  else if 2 ≤ c ∧ c ≤ 3 then
    some ("Confirmado por " ++ toString c ++ " personas (confianza media)", "confidence-yellow")
  else if 4 ≤ c then
    some ("Confirmado por " ++ toString c ++ " personas (alta confianza)", "confidence-green")
  else none

/-! ## Concrete data used by witnesses and counterexamples -/

/-- The spec's aggregation example:
`[(p1,s1,$10,t1), (p1,s1,$12,t2>t1), (p1,s2,$9,t3)]`. -/
def demoSightings : List Sighting :=
  [⟨1, 1, 1, 10, 1⟩, ⟨2, 1, 1, 12, 2⟩, ⟨3, 1, 2, 9, 3⟩]

/-- Product-name lookup for the demo: product 1 is canonical "leche 1 l". -/
def demoName : Nat → String := fun _ => "leche 1 l"

/-- Currency lookup for the demo. -/
def demoCurrency : Nat → String := fun _ => "ARS"

/-- The expected (p1,s1) entry of the spec's aggregation example. -/
def demoEntry1 : Entry :=
  { pid := 1, sid := 1, raw_name := "leche 1 l", display_name := "Leche 1 l",
    currency := "ARS", latest_price := 12, latest_date := 2, count := 2,
    label := "Confirmado por 2 personas (confianza media)",
    css_class := "confidence-yellow" }

/-- The expected (p1,s2) entry of the spec's aggregation example. -/
def demoEntry2 : Entry :=
  { pid := 1, sid := 2, raw_name := "leche 1 l", display_name := "Leche 1 l",
    currency := "ARS", latest_price := 9, latest_date := 3, count := 1,
    label := "Reportado por 1 persona (puede variar)",
    css_class := "confidence-red" }

/-- An aggregated entry whose canonical product name is "1ltx" (a fixed
point of `normalize_product`), used to separate the code's filter from the
spec's wording. -/
def entriesX : List Entry :=
  aggEntries [⟨1, 1, 1, 5, 1⟩] (fun _ => "1ltx") (fun _ => "ARS")

/-- A concrete entry for the filter witness. -/
def entryW : Entry :=
  { pid := 1, sid := 1, raw_name := "leche 1 l", display_name := "Leche 1 l",
    currency := "ARS", latest_price := 12, latest_date := 2, count := 2,
    label := "Confirmado por 2 personas (confianza media)",
    css_class := "confidence-yellow" }

/-- Concrete entries for the sorting witness: two currencies, mixed order. -/
def demoSortEntries : List Entry :=
  [{ entryW with currency := "USD", latest_price := 3 },
   { entryW with currency := "ARS", latest_price := 9 },
   { entryW with currency := "USD", latest_price := 1 },
   { entryW with currency := "ARS", latest_price := 4 }]

/-! ## Helper lemmas -/

/-- `punctSub` leaves no `[.,;:]` character in its output. -/
lemma punctSub_no_punct (l : List Char) : ∀ c ∈ punctSub l, isPunct c = false := by
  induction l with
  | nil => intro c hc; cases hc
  | cons a t ih =>
    intro c hc
    by_cases ha : isPunct a = true
    · exact ih c (by simpa [punctSub, ha] using hc)
    · rw [punctSub, if_neg (by simp [ha])] at hc
      rcases List.mem_cons.mp hc with rfl | hc
      · simpa using ha
      · exact ih c hc

/-- Stripping an all-whitespace string yields the empty data. -/
lemma pyStrip_eq_nil {l : List Char} (h : ∀ c ∈ l, c.isWhitespace = true) :
    pyStrip l = [] := by
  unfold pyStrip
  rw [List.dropWhile_eq_nil_iff.mpr h]
  rfl

/-- `normalizeData` of empty data is empty. -/
lemma normalizeData_of_strip_nil {l : List Char} (h : pyStrip l = []) :
    normalizeData l = [] := by
  unfold normalizeData
  rw [h]
  rfl

/-- Membership in `notifyInsert`. -/
lemma mem_notifyInsert {st : List (Nat × Nat)} {p q : Nat × Nat} :
    q ∈ notifyInsert st p ↔ q ∈ st ∨ q = p := by
  unfold notifyInsert
  by_cases hp : p ∈ st
  · rw [if_pos hp]
    constructor
    · exact Or.inl
    · rintro (h | rfl)
      · exact h
      · exact hp
  · rw [if_neg hp]
    simp [List.mem_append]

/-- `notifyInsert` preserves `Nodup`. -/
lemma nodup_notifyInsert {st : List (Nat × Nat)} {p : Nat × Nat} (h : st.Nodup) :
    (notifyInsert st p).Nodup := by
  unfold notifyInsert
  by_cases hp : p ∈ st
  · rw [if_pos hp]; exact h
  · rw [if_neg hp]
    simp [List.nodup_append, h, hp]

/-- Membership in a Matcher pass. -/
lemma mem_runMatcher {qual st : List (Nat × Nat)} {q : Nat × Nat} :
    q ∈ runMatcher qual st ↔ q ∈ st ∨ q ∈ qual := by
  induction qual generalizing st with
  | nil => simp [runMatcher]
  | cons a t ih =>
    rw [runMatcher, List.foldl_cons]
    rw [show List.foldl notifyInsert (notifyInsert st a) t = runMatcher t (notifyInsert st a) from rfl]
    rw [ih, mem_notifyInsert]
    simp [List.mem_cons]
    tauto

/-- A Matcher pass preserves `Nodup`. -/
lemma nodup_runMatcher {qual st : List (Nat × Nat)} (h : st.Nodup) :
    (runMatcher qual st).Nodup := by
  induction qual generalizing st with
  | nil => exact h
  | cons a t ih =>
    rw [runMatcher, List.foldl_cons]
    exact ih (nodup_notifyInsert h)

/-- A Matcher pass over an already-covered store changes nothing. -/
lemma runMatcher_fixed {qual st : List (Nat × Nat)} (h : ∀ q ∈ qual, q ∈ st) :
    runMatcher qual st = st := by
  induction qual generalizing st with
  | nil => rfl
  | cons a t ih =>
    rw [runMatcher, List.foldl_cons]
    have ha : notifyInsert st a = st := by
      unfold notifyInsert
      rw [if_pos (h a (List.mem_cons_self a t))]
    rw [ha]
    exact ih fun q hq => h q (List.mem_cons_of_mem a hq)

/-- `groupKeys` has no duplicate keys. -/
lemma groupKeys_nodup (ss : List Sighting) : (groupKeys ss).Nodup := by
  induction ss with
  | nil => exact List.nodup_nil
  | cons s t ih =>
    rw [groupKeys]
    refine List.Nodup.cons ?_ (ih.filter _)
    intro hmem
    have := (List.mem_filter.mp hmem).2
    simp at this

/-- The keys of the grouping are exactly the keys of the sightings. -/
lemma mem_groupKeys {ss : List Sighting} {p : Nat × Nat} :
    p ∈ groupKeys ss ↔ ∃ s ∈ ss, skey s = p := by
  induction ss with
  | nil => simp [groupKeys]
  | cons s t ih =>
    rw [groupKeys]
    by_cases hp : p = skey s
    · subst hp
      constructor
      · intro _
        exact ⟨s, List.mem_cons_self s t, rfl⟩
      · intro _
        exact List.mem_cons_self _ _
    · constructor
      · intro h
        rcases List.mem_cons.mp h with h | h
        · exact absurd h hp
        · rcases ih.mp (List.mem_filter.mp h).1 with ⟨s2, hs2, hk⟩
          exact ⟨s2, List.mem_cons_of_mem s hs2, hk⟩
      · rintro ⟨s2, hs2, hk⟩
        rcases List.mem_cons.mp hs2 with rfl | hs2
        · exact absurd hk.symm hp
        · refine List.mem_cons_of_mem _ (List.mem_filter.mpr ⟨ih.mpr ⟨s2, hs2, hk⟩, ?_⟩)
          simpa using hp

/-- A sighting belongs to its own group. -/
lemma mem_groupItems {ss : List Sighting} {s : Sighting} {k : Nat × Nat}
    (hs : s ∈ ss) (hk : skey s = k) : s ∈ groupItems ss k := by
  unfold groupItems
  exact List.mem_filter.mpr ⟨hs, by simp [hk]⟩

/-- Members of a group are sightings with that key. -/
lemma of_mem_groupItems {ss : List Sighting} {s : Sighting} {k : Nat × Nat}
    (h : s ∈ groupItems ss k) : s ∈ ss ∧ skey s = k := by
  have := List.mem_filter.mp h
  exact ⟨this.1, by simpa using this.2⟩

/-- The head of the descending sort is a group member carrying the maximal
`created_at` of the group. -/
lemma latest_spec {items : List Sighting} (hne : items ≠ []) :
    (sortSightingsDesc items).headD default ∈ items ∧
    ∀ s ∈ items, s.created_at ≤ ((sortSightingsDesc items).headD default).created_at := by
  have hperm : List.Perm (sortSightingsDesc items) items :=
    List.perm_insertionSort laterFirst items
  have hsorted : List.Sorted laterFirst (sortSightingsDesc items) :=
    List.sorted_insertionSort laterFirst items
  cases hsort : sortSightingsDesc items with
  | nil =>
    exfalso
    have := hperm.length_eq
    rw [hsort] at this
    exact hne (List.length_eq_zero.mp this.symm)
  | cons a t =>
    rw [hsort] at hperm hsorted
    constructor
    · exact hperm.mem_iff.mp (List.mem_cons_self a t)
    · intro s hs
      rcases List.mem_cons.mp (hperm.mem_iff.mpr hs) with rfl | hst
      · exact le_refl _
      · exact List.rel_of_sorted_cons hsorted s hst

/-- Each aggregated entry arises from a key of the grouping. -/
lemma mem_aggEntries {ss : List Sighting} {pn pc : Nat → String} {e : Entry}
    (h : e ∈ aggEntries ss pn pc) :
    entryKey e ∈ groupKeys ss ∧ e = mkEntry pn pc (entryKey e) (groupItems ss (entryKey e)) := by
  rcases List.mem_map.mp h with ⟨k, hk, he⟩
  have hkey : entryKey e = k := by rw [← he]; rfl
  rw [hkey]
  exact ⟨hk, he.symm⟩

/-- Sandwich property: a `≤`-monotone attribute along a sorted list is
constant between equal endpoints. -/
lemma sandwich_of_sorted {r : Entry → Entry → Prop} [IsRefl Entry r] {l : List Entry}
    (h : List.Sorted r l) (mono : ∀ a b : Entry, r a b → a.currency ≤ b.currency) :
    currencyContiguous l := by
  intro i j k hij hjk hik
  have h1 := mono _ _ (h.rel_get_of_le hij)
  have h2 := mono _ _ (h.rel_get_of_le hjk)
  exact le_antisymm (hik ▸ h2) h1

/-- Sandwich property, antitone version. -/
lemma sandwich_of_sorted_anti {r : Entry → Entry → Prop} [IsRefl Entry r] {l : List Entry}
    (h : List.Sorted r l) (anti : ∀ a b : Entry, r a b → b.currency ≤ a.currency) :
    currencyContiguous l := by
  intro i j k hij hjk hik
  have h1 := anti _ _ (h.rel_get_of_le hij)
  have h2 := anti _ _ (h.rel_get_of_le hjk)
  exact le_antisymm h1 (hik ▸ h2)

/-- `rAsc` is monotone in the currency. -/
lemma rAsc_currency_le {a b : Entry} (h : rAsc a b) : a.currency ≤ b.currency := by
  rcases h with h | ⟨h, _⟩
  · exact le_of_lt h
  · exact le_of_eq h

/-- Absent pairs have count 0. -/
lemma count_zero_pair {p : Nat × Nat} {l : List (Nat × Nat)} (h : p ∉ l) :
    List.count p l = 0 := by
  induction l with
  | nil => rfl
  | cons a t ih =>
    rw [List.count_cons]
    have hne : (a == p) = false := by
      simp only [beq_eq_false_iff_ne, ne_eq]
      intro hh
      exact h (hh ▸ List.mem_cons_self a t)
    rw [hne, if_neg (by simp)]
    simpa using ih (fun hm => h (List.mem_cons_of_mem a hm))

/-- In a duplicate-free list, present pairs have count 1. -/
lemma count_one_pair {p : Nat × Nat} {l : List (Nat × Nat)} (hnd : l.Nodup) (hm : p ∈ l) :
    List.count p l = 1 := by
  induction l with
  | nil => cases hm
  | cons a t ih =>
    rw [List.count_cons]
    rcases List.mem_cons.mp hm with rfl | hmt
    · rw [count_zero_pair ((List.nodup_cons.mp hnd).1), if_pos (by simp)]
    · have hne : (a == p) = false := by
        simp only [beq_eq_false_iff_ne, ne_eq]
        intro hh
        exact (List.nodup_cons.mp hnd).1 (hh ▸ hmt)
      rw [hne, if_neg (by simp)]
      simpa using ih (List.nodup_cons.mp hnd).2 hmt

/-! ## Claim theorems -/

/-- C1: `normalize_product` is NOT idempotent.  Evaluating the code at the
failing input "1.l": the first pass deletes the interior dot, producing
"1l", and a second pass then rewrites the newly adjacent digit-unit pair to
"1 l", so `normalize_product (normalize_product "1.l")` differs from
`normalize_product "1.l"`. -/
theorem normalize_product_not_idempotent_eval :
    normalize_product "1.l" = "1l" ∧
    normalize_product (normalize_product "1.l") = "1 l" ∧
    normalize_product (normalize_product "1.l") ≠ normalize_product "1.l" := by
  refine ⟨by decide, by decide, by decide⟩

/-- C2 counterexample: the punctuation-removal step `re.sub(r"[.,;:]+", "", s)`
deletes INTERIOR punctuation as well, not only trailing punctuation: on
"a.b" the interior dot is removed, and the whole normalizer maps "a.b" to
"ab". -/
theorem punctSub_interior_counterexample :
    punctSub "a.b".data = "ab".data ∧
    isPunct '.' = true ∧
    '.' ∈ "a.b".data ∧
    '.' ∉ punctSub "a.b".data ∧
    normalize_product "a.b" = "ab" := by
  refine ⟨by decide, by decide, by decide, by decide, by decide⟩

/-- C2 (amended): the punctuation-removal step removes every occurrence of
the characters `. , ; :` — no such character survives in the output of
`normalize_product` wherever it occurred — and every empty or
whitespace-only input yields the empty string. -/
theorem normalize_punct_removal_and_empty :
    (∀ s : String, ∀ c ∈ (normalize_product s).data, isPunct c = false) ∧
    (∀ s : String, (∀ c ∈ s.data, c.isWhitespace = true) → normalize_product s = "") := by
  constructor
  · intro s c hc
    by_cases hs : s = ""
    · rw [hs] at hc
      cases hc
    · rw [normalize_product, if_neg hs] at hc
      exact punctSub_no_punct _ c hc
  · intro s hws
    by_cases hs : s = ""
    · rw [hs, normalize_product, if_pos rfl]
    · rw [normalize_product, if_neg hs,
        normalizeData_of_strip_nil (pyStrip_eq_nil hws)]

/-- C2 witness. -/
theorem normalize_punct_removal_and_empty_w :
    normalize_product " \t " = "" :=
  normalize_punct_removal_and_empty.2 " \t " (by decide)

/-- C3: for every sighting count ≥ 1 the code's `confidence_label` and
`confidence_class` realize exactly the specification's tier table:
count 1 ↦ single-report tier, counts 2–3 ↦ medium tier, counts ≥ 4 ↦ high
tier. -/
theorem confidence_tiers_match_spec :
    ∀ c : Int, 1 ≤ c → tierSpec c = some (confidence_label c, confidence_class c) := by
  intro c hc
  unfold tierSpec confidence_label confidence_class
  split_ifs with h1 h2 h3
  · rfl
  · rfl
  · rfl
  · exfalso
    omega

/-- C3 witness. -/
theorem confidence_tiers_match_spec_w :
    (1 : Int) ≤ 4 ∧ tierSpec 4 = some (confidence_label 4, confidence_class 4) :=
  ⟨by decide, confidence_tiers_match_spec 4 (by decide)⟩

/-- C9: for every count ≤ 0 (e.g. an empty group) `confidence_label` and
`confidence_class` do not fail and fall through to the default
high-confidence branch: the "alta confianza" label and the
"confidence-green" class. -/
theorem confidence_nonpositive_high :
    ∀ c : Int, c ≤ 0 →
      confidence_label c = "Confirmado por " ++ toString c ++ " personas (alta confianza)" ∧
      confidence_class c = "confidence-green" := by
  intro c hc
  unfold confidence_label confidence_class
  constructor
  · rw [if_neg (by omega), if_neg (by omega)]
  · rw [if_neg (by omega), if_neg (by omega)]

/-- C9 witness. -/
theorem confidence_nonpositive_high_w :
    (0 : Int) ≤ 0 ∧
      confidence_label 0 = "Confirmado por " ++ toString (0 : Int) ++ " personas (alta confianza)" ∧
      confidence_class 0 = "confidence-green" :=
  ⟨by decide, confidence_nonpositive_high 0 (by decide)⟩

/-- C7 counterexample: a Google geocode result with a coordinate equal to
0.0 is neither empty nor failed (it differs from `(None, None)`), yet the
page's truthiness check still consults OSM and uses the OSM result, so the
claimed "exactly when empty or failed" fails. -/
theorem geocode_fallback_zero_coord :
    usesOsmGeocode (some 0, some 7) = true ∧
    (some (0 : ℚ), some (7 : ℚ)) ≠ ((none : Option ℚ), (none : Option ℚ)) ∧
    geocodeStoreAddress (some 0, some 7) (some 5, some 6) = (some 5, some 6) ∧
    geocodeStoreAddress (some 0, some 7) (some 5, some 6) ≠ (some 0, some 7) := by
  refine ⟨by decide, by decide, by decide, by decide⟩

/-- C7 (amended): the page queries OSM exactly when Google's geocode result
has either coordinate `None` or `0.0` (Python falsiness) — so a Google
result with both coordinates present and non-zero is used without
consulting OSM — and for place suggestions exactly when the Google list is
empty. -/
theorem geocode_places_fallback :
    (∀ glat glon : Option ℚ,
      usesOsmGeocode (glat, glon) = false ↔
        (∃ x, glat = some x ∧ x ≠ 0) ∧ (∃ y, glon = some y ∧ y ≠ 0)) ∧
    (∀ g o : Option ℚ × Option ℚ, usesOsmGeocode g = false → geocodeStoreAddress g o = g) ∧
    (∀ g o : Option ℚ × Option ℚ, usesOsmGeocode g = true → geocodeStoreAddress g o = o) ∧
    (∀ gp op : List Place, gp = [] → placesWithFallback gp op = op) ∧
    (∀ gp op : List Place, gp ≠ [] → placesWithFallback gp op = gp) := by
  refine ⟨?_, ?_, ?_, ?_, ?_⟩
  · intro glat glon
    cases glat with
    | none => simp [usesOsmGeocode, coordFalsy]
    | some x =>
      cases glon with
      | none => simp [usesOsmGeocode, coordFalsy]
      | some y =>
        simp only [usesOsmGeocode, coordFalsy, Bool.or_eq_false_iff, beq_eq_false_iff_ne]
        constructor
        · rintro ⟨hx, hy⟩
          exact ⟨⟨x, rfl, hx⟩, ⟨y, rfl, hy⟩⟩
        · rintro ⟨⟨x2, hx2, hxne⟩, ⟨y2, hy2, hyne⟩⟩
          cases Option.some.inj hx2
          cases Option.some.inj hy2
          exact ⟨hxne, hyne⟩
  · intro g o h
    rw [geocodeStoreAddress, if_neg (by simp [h])]
  · intro g o h
    rw [geocodeStoreAddress, if_pos (by simp [h])]
  · intro gp op h
    rw [placesWithFallback, if_pos (by simp [h])]
  · intro gp op h
    rw [placesWithFallback, if_neg (by simp [h])]

/-- C7 witness. -/
theorem geocode_places_fallback_w :
    usesOsmGeocode (some 3, some 4) = false ∧
    geocodeStoreAddress (some 3, some 4) (some 5, some 6) = (some 3, some 4) :=
  ⟨by decide, geocode_places_fallback.2.1 (some 3, some 4) (some 5, some 6) (by decide)⟩

/-- C10: creating an alert with target price 0 stores `target_price` as
null (`float(target_price) if target_price else None` maps 0.0 to None),
every strictly positive target price is stored as given, and under the
spec's matching rules a null target skips the price test, so any price
passes. -/
theorem alert_zero_target_none :
    storedTargetPrice 0 = none ∧
    (∀ tp : ℚ, 0 < tp → storedTargetPrice tp = some tp) ∧
    (∀ tol price : ℚ, priceTestPasses (storedTargetPrice 0) tol price = true) := by
  refine ⟨rfl, ?_, ?_⟩
  · intro tp htp
    rw [storedTargetPrice, if_neg (by simp [htp.ne'])]
  · intro tol price
    rfl

/-- C10 witness. -/
theorem alert_zero_target_none_w :
    (0 : ℚ) < 50 ∧ storedTargetPrice 50 = some 50 :=
  ⟨by norm_num, alert_zero_target_none.2.1 50 (by norm_num)⟩

/-- C5 counterexample: the claim's wording compares the UN-stripped
lowercased filter against the display name, but the code strips it first
(`filter_text.strip().lower()`).  For the whitespace-padded filter " 1lt "
and the aggregated entry with canonical name "1ltx", the code keeps the
entry while the claim's predicate rejects it, refuting the stated
if-and-only-if. -/
theorem filter_spec_wording_divergence :
    (" 1lt " : String) ≠ "" ∧
    filterEntries " 1lt " entriesX = entriesX ∧
    entriesX ≠ [] ∧
    entriesX.map (specFilterKeeps " 1lt ") = [false] := by
  refine ⟨by decide, by decide, by decide, by decide⟩

/-- C5 (amended): for every non-empty free-text filter, an aggregated entry
survives the filter if and only if the normalized filter string is a
substring of the canonical product name OR the STRIPPED-and-lowercased
filter string is a substring of the lowercased display name (OR semantics,
not AND). -/
theorem filterEntries_mem_iff :
    ∀ (ft : String) (es : List Entry) (e : Entry), ft ≠ "" →
      (e ∈ filterEntries ft es ↔
        e ∈ es ∧ (pyIn (normalize_product ft) e.raw_name = true ∨
          pyIn (strLower ⟨pyStrip ft.data⟩) (strLower e.display_name) = true)) := by
  intro ft es e hft
  rw [filterEntries, if_neg hft, List.mem_filter]
  simp [Bool.or_eq_true]

/-- C5 witness. -/
theorem filterEntries_mem_iff_w :
    ("1lt" : String) ≠ "" ∧
    (entryW ∈ filterEntries "1lt" [entryW] ↔
      entryW ∈ [entryW] ∧ (pyIn (normalize_product "1lt") entryW.raw_name = true ∨
        pyIn (strLower ⟨pyStrip "1lt".data⟩) (strLower entryW.display_name) = true)) :=
  ⟨by decide, filterEntries_mem_iff "1lt" [entryW] entryW (by decide)⟩

/-- C8: running the Matcher any number of times (≥ 1) over the qualifying
(alert, sighting) pairs of the same unchanged sighting set yields exactly
one Notification per qualifying pair and none for any other pair — never
two for the same `(alert_id, sighting_id)`. -/
theorem matcher_notification_unique :
    ∀ (qual : List (Nat × Nat)) (p : Nat × Nat) (n : Nat), 1 ≤ n →
      (((runMatcher qual)^[n]) []).count p = if p ∈ qual then 1 else 0 := by
  intro qual p n hn
  have hstep : ∀ m : Nat, 1 ≤ m → ((runMatcher qual)^[m]) [] = runMatcher qual [] := by
    intro m hm
    induction m with
    | zero => omega
    | succ k ihk =>
      rw [Function.iterate_succ_apply']
      by_cases hk : 1 ≤ k
      · rw [ihk hk]
        exact runMatcher_fixed fun q hq => mem_runMatcher.mpr (Or.inr hq)
      · have : k = 0 := by omega
        rw [this]
        rfl
  rw [hstep n hn]
  have hnodup : (runMatcher qual []).Nodup := nodup_runMatcher List.nodup_nil
  by_cases hp : p ∈ qual
  · rw [if_pos hp]
    exact count_one_pair hnodup (mem_runMatcher.mpr (Or.inr hp))
  · rw [if_neg hp]
    refine count_zero_pair ?_
    intro hmem
    rcases mem_runMatcher.mp hmem with h | h
    · cases h
    · exact hp h

/-- C8 witness. -/
theorem matcher_notification_unique_w :
    1 ≤ 2 ∧
      (((runMatcher [(1, 2), (3, 4)])^[2]) []).count (1, 2) =
        if (1, 2) ∈ [(1, 2), (3, 4)] then 1 else 0 :=
  ⟨by decide, matcher_notification_unique [(1, 2), (3, 4)] (1, 2) 2 (by decide)⟩

/-- C6: after sorting by price ascending or by price descending, the output
is partitioned into contiguous blocks by currency — entries of different
currencies are never interleaved — and the price order holds within each
currency block (ascending resp. descending). -/
theorem sort_price_currency_blocks :
    ∀ es : List Entry,
      currencyContiguous (sortPriceAsc es) ∧ pricesWithinAsc (sortPriceAsc es) ∧
      currencyContiguous (sortPriceDesc es) ∧ pricesWithinDesc (sortPriceDesc es) := by
  intro es
  have hA : List.Sorted rAsc (sortPriceAsc es) := List.sorted_insertionSort rAsc es
  have hD : List.Sorted rDesc (sortPriceDesc es) := List.sorted_insertionSort rDesc es
  refine ⟨sandwich_of_sorted hA (fun a b h => rAsc_currency_le h), ?_,
    sandwich_of_sorted_anti hD (fun a b h => rAsc_currency_le h), ?_⟩
  · intro i j hij hcur
    have h : rAsc ((sortPriceAsc es).get i) ((sortPriceAsc es).get j) :=
      hA.rel_get_of_le hij
    rcases h with h | ⟨_, hp⟩
    · exact absurd hcur (ne_of_lt h)
    · exact hp
  · intro i j hij hcur
    have h : rAsc ((sortPriceDesc es).get j) ((sortPriceDesc es).get i) :=
      hD.rel_get_of_le hij
    rcases h with h | ⟨_, hp⟩
    · exact absurd hcur.symm (ne_of_lt h)
    · exact hp

/-- C6 witness. -/
theorem sort_price_currency_blocks_w :
    currencyContiguous (sortPriceAsc demoSortEntries) ∧
    pricesWithinAsc (sortPriceAsc demoSortEntries) ∧
    currencyContiguous (sortPriceDesc demoSortEntries) ∧
    pricesWithinDesc (sortPriceDesc demoSortEntries) :=
  sort_price_currency_blocks demoSortEntries

/-- C4: the aggregator produces exactly one entry per distinct
(product_id, store_id) pair — the entry keys are exactly the distinct keys
of the scoped sightings, without duplicates — each entry's count is its
group's size and its price and timestamp are those of a group member of
maximal `created_at`; and on the spec's example
`[(p1,s1,$10,t1), (p1,s1,$12,t2), (p1,s2,$9,t3)]` it yields exactly the
two entries (p1,s1): price 12, count 2, medium tier and (p1,s2): price 9,
count 1, low tier. -/
theorem aggEntries_correct :
    (∀ (ss : List Sighting) (pn pc : Nat → String),
      (aggEntries ss pn pc).map entryKey = groupKeys ss ∧
      (groupKeys ss).Nodup ∧
      (∀ p : Nat × Nat, p ∈ groupKeys ss ↔ ∃ s ∈ ss, skey s = p) ∧
      (∀ e ∈ aggEntries ss pn pc,
        e.count = (groupItems ss (entryKey e)).length ∧
        (∃ s ∈ groupItems ss (entryKey e),
          s.price = e.latest_price ∧ s.created_at = e.latest_date) ∧
        ∀ s ∈ groupItems ss (entryKey e), s.created_at ≤ e.latest_date)) ∧
    aggEntries demoSightings demoName demoCurrency = [demoEntry1, demoEntry2] := by
  constructor
  · intro ss pn pc
    refine ⟨?_, groupKeys_nodup ss, fun p => mem_groupKeys, ?_⟩
    · rw [aggEntries, List.map_map]
      have hcomp : (entryKey ∘ fun k => mkEntry pn pc k (groupItems ss k)) = id := by
        funext k
        rfl
      rw [hcomp, List.map_id]
    · intro e he
      obtain ⟨k, hkmem, rfl⟩ := List.mem_map.mp he
      obtain ⟨s0, hs0, hs0k⟩ := mem_groupKeys.mp hkmem
      have hne : groupItems ss k ≠ [] :=
        List.ne_nil_of_mem (mem_groupItems hs0 hs0k)
      obtain ⟨hmem, hmax⟩ := latest_spec hne
      exact ⟨rfl, ⟨_, hmem, rfl, rfl⟩, fun s hs => hmax s hs⟩
  · decide

/-- C4 witness. -/
theorem aggEntries_correct_w :
    demoEntry1 ∈ aggEntries demoSightings demoName demoCurrency ∧
    demoEntry1.count = (groupItems demoSightings (entryKey demoEntry1)).length ∧
    ((1, 1) ∈ groupKeys demoSightings ↔ ∃ s ∈ demoSightings, skey s = (1, 1)) := by
  refine ⟨by decide, ?_, ?_⟩
  · exact ((aggEntries_correct.1 demoSightings demoName demoCurrency).2.2.2
      demoEntry1 (by decide)).1
  · exact (aggEntries_correct.1 demoSightings demoName demoCurrency).2.2.1 (1, 1)

end Buscador
